import Mathlib

/-!
Verification development for the persistence / checkpoint layer of the
fmit-crawler (`crawler.py`).

The embedding models, straight from the source:
  * the Record data model (`url`, `h1`, `h2`, `content`, all strings);
  * the sharded JSON Record Store (`append_to_files`, `get_current_json_file`,
    `initialize_output_files` — modelled as `init_output_files`);
  * the derived parquet Duplicate Index (`rebuild_parquet_from_json`,
    `load_processed_urls`);
  * the page checkpoint (`load_page_checkpoint`, `save_page_checkpoint`);
  * the crawl controller `run_once` (phase 1 link collection, phase 2 field
    extraction), with the external Page Fetcher and the wall-clock budget
    abstracted as oracle functions.

File-system state is captured by `SysState`: the checkpoint file content
(`none` = absent or unreadable), the ordered list of JSON shard files (each a
list of records; files are identified by their position, matching the sorted
`fmit_data_NNN.json` naming for fewer than 1000 shards), and the parquet file
content (the empty list doubles for an absent parquet file, which
`read_parquet_df` also reads as an empty frame).

Byte sizes: the source measures `len(json.dumps(data, ensure_ascii=False,
indent=2).encode("utf-8"))` (and `os.path.getsize`, which for a shard written
by this very code equals that same quantity, as every write dumps with these
exact parameters).  `dumpsBytes` below is that byte count in closed form; the
derivation is spelled out at its definition.  The size ceiling
`MAX_JSON_FILE_SIZE_MB` is a module constant in the source (95 MB); the store
functions here take the ceiling in bytes as an explicit parameter `maxB` so
that the same definitions can be run at the real constant
`MAX_JSON_FILE_SIZE_BYTES` and reasoned about uniformly.
-/

/-- A crawl record, `{url, h1, h2, content}`, all fields strings (source:
`append_to_files` builds records with exactly these four keys, defaulting to
the empty string). -/
structure Record where
  url : String
  h1 : String
  h2 : String
  content : String
  deriving DecidableEq, Repr

/-- Source constant `START_PAGE = 6019`. -/
def START_PAGE : Int := 6019

/-- Source constant `MAX_PAGES = 7185`. -/
def MAX_PAGES : Int := 7185

/-- Source constant `PAGES_PER_RUN = 10` (set in `run_once`). -/
def PAGES_PER_RUN : Int := 10

/-- Source constant `MAX_JSON_FILE_SIZE_MB = 95`. -/
def MAX_JSON_FILE_SIZE_MB : Nat := 95

/-- The size ceiling in bytes.  The source compares
`len(...)/1024/1024 >= MAX_JSON_FILE_SIZE_MB`; on byte counts this float
comparison is exactly `bytes >= 95 * 1024 * 1024`. -/
def MAX_JSON_FILE_SIZE_BYTES : Nat := MAX_JSON_FILE_SIZE_MB * 1024 * 1024

/-- UTF-8 byte contribution of one character of a JSON string value as
serialized by `json.dumps(..., ensure_ascii=False)`: the characters
`"` and `\` and the controls BS, TAB, LF, FF, CR become two-byte escapes
(`\"`, `\\`, `\b`, `\t`, `\n`, `\f`, `\r`), any other control character
becomes a six-byte `\u00XX` escape, and everything else is emitted raw in
UTF-8. -/
def charEscBytes (c : Char) : Nat :=
  if c = '"' ∨ c = '\\' ∨ c = '\n' ∨ c = '\t' ∨ c = '\r' ∨ c.toNat = 8 ∨ c.toNat = 12 then 2
  else if c.toNat < 32 then 6
  else c.utf8Size

/-- UTF-8 byte length of the escaped content of a JSON string value. -/
def escBytes (s : String) : Nat := (s.data.map charEscBytes).sum

/-- Byte length of one record object as serialized by
`json.dumps(..., ensure_ascii=False, indent=2)` at list depth, i.e. the block

  opening brace, then for each of the four fields a line
  `    "key": "value"` (comma-separated), then a closing line with the brace
  indented by two spaces.

Fixed bytes: braces 2; first-field prefix (newline + 4 spaces) 5; three
further field prefixes (comma + newline + 4 spaces) 18; closing newline + 2
spaces 3; quoted keys with colon and space, `"url": ` 7, `"h1": ` 6,
`"h2": ` 6, `"content": ` 11; value quotes 8.  Total 66, plus the escaped
field contents. -/
def recordBytes (r : Record) : Nat :=
  66 + escBytes r.url + escBytes r.h1 + escBytes r.h2 + escBytes r.content

/-- Byte length of `json.dumps(rs, ensure_ascii=False, indent=2)` encoded as
UTF-8.  The empty list is `[]` (2 bytes); a list of `n` records is
`[` + newline + 2 spaces, the records joined by `,` + newline + 2 spaces,
then newline + `]`, i.e. `6 + sum(recordBytes) + 4*(n-1)`.  Both cases equal
`2 + sum(recordBytes r + 4)`. -/
def dumpsBytes (rs : List Record) : Nat :=
  2 + (rs.map (fun r => recordBytes r + 4)).sum

/-- The persisted state: checkpoint file (`none` = absent or unreadable),
shard files in order, parquet index file content. -/
structure SysState where
  checkpoint : Option Int
  shards : List (List Record)
  parquet : List Record
  deriving DecidableEq, Repr

/-- Source `load_page_checkpoint`: `START_PAGE - 1` when the file is absent or
unreadable, otherwise `max(last_page, START_PAGE - 1)`. -/
def load_page_checkpoint (cp : Option Int) : Int :=
  match cp with
  | none => START_PAGE - 1
  | some v => max v (START_PAGE - 1)

/-- Source `save_page_checkpoint(page)`: overwrite the checkpoint file with
`{"last_page": page}`. -/
def save_page_checkpoint (page : Int) (st : SysState) : SysState :=
  { st with checkpoint := some page }

/-- The set of URLs recorded in the shard files, as collected by the
duplicate-checking loop of `append_to_files`: every `item.get("url")` that is
truthy, i.e. a non-empty string. -/
def storeUrls (shards : List (List Record)) : List String :=
  (shards.flatten.map Record.url).filter (fun u => u ≠ "")

/-- The duplicate filter of `append_to_files`: walk the incoming rows in
order, drop any row whose url is empty (falsy) or already in `ex`, keep the
rest, adding each kept url to `ex` so that within the batch the first
occurrence wins.  (The source re-builds each kept row as a record with the
four fields defaulted to `""`; `Record` is already total in those fields.) -/
def dedupNew (ex : List String) : List Record → List Record
  | [] => []
  | r :: rs =>
    if r.url = "" then dedupNew ex rs
    else if r.url ∈ ex then dedupNew ex rs
    else r :: dedupNew (r.url :: ex) rs

/-- Source `get_current_json_file`, returning the index of the file to write:
with no files at all, the (not yet existing) first file, index 0; otherwise
the latest file, index `length - 1`, unless its on-disk size has reached the
ceiling, in which case a fresh file, index `length`. -/
def get_current_json_file (maxB : Nat) (shards : List (List Record)) : Nat :=
  if shards = [] then 0
  else if maxB ≤ dumpsBytes (shards.getD (shards.length - 1) []) then shards.length
  else shards.length - 1

/-- Writing `content` to the file at index `i`: index `length` creates a new
file, an existing index is overwritten (`json.dump(..., "w")`). -/
def writeShard (shards : List (List Record)) (i : Nat) (content : List Record) :
    List (List Record) :=
  if i = shards.length then shards ++ [content] else shards.set i content

/-- The parquet update at the end of `append_to_files`: when the existing
parquet frame is non-empty, append those new rows whose url it does not
already contain; an empty (or absent) parquet file is left untouched. -/
def updateParquet (parquet : List Record) (newRows : List Record) : List Record :=
  if parquet = [] then parquet
  else
    let fresh := newRows.filter (fun r => r.url ∉ parquet.map Record.url)
    if fresh = [] then parquet else parquet ++ fresh

/-- All records of the readable shard files, in file order; `none` models a
shard file that is unreadable or whose JSON is not a list, which
`rebuild_parquet_from_json` skips with a warning (treating it as empty). -/
def readableRecords (files : List (Option (List Record))) : List Record :=
  (files.map (fun f => f.getD [])).flatten

/-- Source `rebuild_parquet_from_json`: with no JSON files, return without
writing; otherwise concatenate the records of all readable files and, when at
least one record was found, overwrite the parquet file with them; with no
records found, log and leave the parquet file as it is.  Unreadable files are
skipped, never deleted. -/
def rebuild_parquet_from_json (files : List (Option (List Record)))
    (parquet : List Record) : List Record :=
  if files = [] then parquet
  else if readableRecords files = [] then parquet
  else readableRecords files

/-- Source `load_processed_urls`: read the parquet frame; if it is empty or
has fewer than 100 rows, rebuild it from the JSON files and re-read; return
the set of url values (the state result carries the possibly rebuilt parquet
file). -/
def load_processed_urls (files : List (Option (List Record)))
    (parquet : List Record) : List String × List Record :=
  let pq := if parquet.length < 100 then rebuild_parquet_from_json files parquet else parquet
  (pq.map Record.url, pq)

/-- Source `initialize_output_files` (migration of the legacy single JSON
file aside, which predates the modelled state): ensure the current JSON file
exists — created empty when there are no files, or when the latest file has
reached the ceiling so that `get_current_json_file` names a fresh one; rebuild
the parquet file when it is absent, or when the JSON files hold records and
the parquet has fewer than 90 percent of them (the float comparison
`len(df) < total * 0.9` is exactly `10 * len < 9 * total` on these integers);
create the checkpoint file with `last_page = 0` when absent. -/
def init_output_files (maxB : Nat) (st : SysState) : SysState :=
  let shards :=
    if st.shards = [] ∨ maxB ≤ dumpsBytes (st.shards.getD (st.shards.length - 1) [])
    then st.shards ++ [[]] else st.shards
  let total := shards.flatten.length
  let parquet :=
    if 0 < total ∧ st.parquet.length * 10 < total * 9
    then rebuild_parquet_from_json (shards.map some) st.parquet
    else st.parquet
  let checkpoint :=
    match st.checkpoint with
    | none => some 0
    | some v => some v
  ⟨checkpoint, shards, parquet⟩

/-- Source `append_to_files(rows)`.  Steps, in source order: return on an
empty batch; if no JSON files exist, run `initialize_output_files` (the
duplicate-check loop then iterates over the stale, empty glob list, so the
urls are those of the pre-existing files); filter the rows with first-write
wins (`dedupNew`); return if nothing is new; pick the current file; read it
(`existingData`, empty for a not-yet-created fresh file); dry-run serialize
the merged list and compare against the ceiling: on overflow, write
`existingData` back to the current file (a content no-op), call
`get_current_json_file` again — the disk is unchanged, so the very same index
comes back — and write only the new rows there; otherwise write the merged
list; finally update the parquet index. -/
def append_to_files (maxB : Nat) (st : SysState) (rows : List Record) : SysState :=
  if rows = [] then st
  else
    let st1 := if st.shards = [] then init_output_files maxB st else st
    let newRows := dedupNew (storeUrls st.shards) rows
    if newRows = [] then st1
    else
      let shards := st1.shards
      let i := get_current_json_file maxB shards
      let existingData := shards.getD i []
      if maxB ≤ dumpsBytes (existingData ++ newRows) then
        let i2 := get_current_json_file maxB shards
        ⟨st1.checkpoint, writeShard shards i2 newRows, updateParquet st1.parquet newRows⟩
      else
        ⟨st1.checkpoint, writeShard shards i (existingData ++ newRows),
         updateParquet st1.parquet newRows⟩

/-- Whether this `append_to_files` call takes the overflow ("seal") branch:
some row survives the duplicate filter and the dry-run serialization of the
current file's records plus the new rows reaches the ceiling. -/
def sealTriggered (maxB : Nat) (st : SysState) (rows : List Record) : Bool :=
  if rows = [] then false
  else
    let st1 := if st.shards = [] then init_output_files maxB st else st
    let newRows := dedupNew (storeUrls st.shards) rows
    if newRows = [] then false
    else
      let shards := st1.shards
      let i := get_current_json_file maxB shards
      decide (maxB ≤ dumpsBytes (shards.getD i [] ++ newRows))

/-- Well-formed store: shard records carry pairwise distinct, non-empty urls
(what the spec's uniqueness invariant presumes of the canonical dataset). -/
def wfStore (st : SysState) : Prop :=
  (st.shards.flatten.map Record.url).Nodup ∧ ∀ r ∈ st.shards.flatten, r.url ≠ ""

instance (st : SysState) : Decidable (wfStore st) := by
  unfold wfStore; infer_instance

/-- Result state of phase 1 of `run_once`: the checkpoint pages written by
`save_page_checkpoint` in order, the pages whose link extraction was attempted
(the loop body ran and counted them in `pages_processed`), the in-run batch of
collected URLs, and the number of link-fetch calls issued. -/
structure Phase1Result where
  saves : List Int
  attempted : List Int
  batch : List String
  fetches : Nat
  deriving DecidableEq, Repr

/-- The links a page ends up with in phase 1 of `run_once`: the result of the
first `extract_page_links` call (oracle `f1`, which already folds the
function's three internal retries), or — when that is empty — of the single
fresh-browser retry (oracle `f2`). -/
def finalLinks (f1 f2 : Int → List String) (p : Int) : List String :=
  if f1 p = [] then f2 p else f1 p

/-- Number of `extract_page_links` calls spent on page `p`: two when the
first yields no links (the retry always runs), otherwise one. -/
def linkFetches (f1 : Int → List String) (p : Int) : Nat :=
  if f1 p = [] then 2 else 1

/-- Phase 1 of `run_once` over the remaining pages.  Per page, in source
order: stop for good when the time budget is crossed (`budget p = false`);
extract links, retrying once on an empty result; when both attempts yield no
links, log, advance to the next page — counting it processed but writing no
checkpoint — and continue; otherwise filter the links against the persisted
url set and the in-run batch, add the new ones to the batch, save the
checkpoint for this page, and advance. -/
def phase1Go (f1 f2 : Int → List String) (budget : Int → Bool)
    (processed : List String) : List Int → Phase1Result → Phase1Result
  | [], s => s
  | p :: rest, s =>
    if budget p = false then s
    else
      if finalLinks f1 f2 p = [] then
        phase1Go f1 f2 budget processed rest
          { s with attempted := s.attempted ++ [p], fetches := s.fetches + linkFetches f1 p }
      else
        phase1Go f1 f2 budget processed rest
          { saves := s.saves ++ [p], attempted := s.attempted ++ [p],
            batch := s.batch ++ (finalLinks f1 f2 p).filter
              (fun h => !(processed.contains h || s.batch.contains h)),
            fetches := s.fetches + linkFetches f1 p }

/-- Phase 2 of `run_once` over the remaining batch URLs, carrying the buffer
(`batch` in the source) and the count of field-fetch calls.  Per URL: stop
when the time budget is crossed; fetch the three fields (oracle `ff`;
`extract_url_data` always returns a record whose url is the argument); buffer
the record when at least one field is non-empty; flush the buffer through
`append_to_files` when it reaches 20. -/
def phase2Go (maxB : Nat) (ff : String → String × String × String)
    (budget2 : String → Bool) :
    List String → List Record → SysState → Nat → SysState × List Record × Nat
  | [], buf, st, n => (st, buf, n)
  | u :: rest, buf, st, n =>
    if budget2 u = false then (st, buf, n)
    else
      let d : Record := ⟨u, (ff u).1, (ff u).2.1, (ff u).2.2⟩
      let buf1 := if d.h1 ≠ "" ∨ d.h2 ≠ "" ∨ d.content ≠ "" then buf ++ [d] else buf
      if 20 ≤ buf1.length then
        phase2Go maxB ff budget2 rest [] (append_to_files maxB st buf1) (n + 1)
      else
        phase2Go maxB ff budget2 rest buf1 st (n + 1)

/-- Phase 2 with its final flush: whatever remains buffered after the loop
(or after an early budget exit) is appended. -/
def phase2 (maxB : Nat) (ff : String → String × String × String)
    (budget2 : String → Bool) (urls : List String) (st : SysState) : SysState × Nat :=
  let r := phase2Go maxB ff budget2 urls [] st 0
  (if r.2.1 = [] then r.1 else append_to_files maxB r.1 r.2.1, r.2.2)

/-- The consecutive pages `lo, lo+1, ..., hi` (empty when `hi < lo`). -/
def pageRange (lo hi : Int) : List Int :=
  (List.range (hi + 1 - lo).toNat).map (fun k => lo + k)

/-- Source `run_once`, with the Page Fetcher and the wall-clock budget as
oracles (`f1`/`f2` per-page link extraction and its retry, `ff` per-url field
extraction, `budget`/`budget2` whether time remains before a unit of work).
Returns the final persisted state and the total number of fetch calls (link
fetches plus field fetches).  Source order: initialize output files; load the
processed urls (possibly rebuilding the parquet); load the checkpoint; return
at once when the next page exceeds `MAX_PAGES`; run phase 1 over at most
`PAGES_PER_RUN` pages (its checkpoint saves land in the checkpoint file);
return when no new URLs were collected; run phase 2. -/
def run_once (maxB : Nat) (f1 f2 : Int → List String)
    (ff : String → String × String × String)
    (budget : Int → Bool) (budget2 : String → Bool) (st : SysState) :
    SysState × Nat :=
  let st1 := init_output_files maxB st
  let pr := load_processed_urls (st1.shards.map some) st1.parquet
  let st2 : SysState := ⟨st1.checkpoint, st1.shards, pr.2⟩
  let current := max (load_page_checkpoint st2.checkpoint + 1) 1
  if MAX_PAGES < current then (st2, 0)
  else
    let target := min (current + PAGES_PER_RUN - 1) MAX_PAGES
    let r1 := phase1Go f1 f2 budget pr.1 (pageRange current target) ⟨[], [], [], 0⟩
    let st3 : SysState :=
      match r1.saves.getLast? with
      | none => st2
      | some p => save_page_checkpoint p st2
    if r1.batch = [] then (st3, r1.fetches)
    else
      let r2 := phase2 maxB ff budget2 r1.batch st3
      (r2.1, r1.fetches + r2.2)

/-- A content string of exactly `MAX_JSON_FILE_SIZE_BYTES` ASCII characters,
used to drive concrete appends across the real size ceiling. -/
def bigContent : String := String.mk (List.replicate MAX_JSON_FILE_SIZE_BYTES 'a')

/-- A small record already stored in the concrete counterexample stores. -/
def xrec : Record := ⟨"x", "X1", "", "small"⟩

/-- A fresh record whose serialization alone reaches the ceiling. -/
def ybig : Record := ⟨"y", "", "", bigContent⟩

/-- A record duplicating `xrec`'s url with different field data. -/
def xdup : Record := ⟨"x", "dup", "", ""⟩

/-- A small fresh record. -/
def zrec : Record := ⟨"z", "", "", "Z"⟩

/-- A store holding exactly `xrec`, with a consistent parquet index. -/
def stX : SysState := ⟨some 0, [[xrec]], [xrec]⟩

/-- The store produced by appending `ybig` to `stX` (one shard at the ceiling,
parquet index carrying both urls). -/
def stY : SysState := ⟨some 0, [[ybig]], [xrec, ybig]⟩

theorem charEscBytes_a : charEscBytes 'a' = 1 := by decide

theorem bigContent_data :
    bigContent.data = List.replicate MAX_JSON_FILE_SIZE_BYTES 'a' := rfl

theorem escBytes_bigContent : escBytes bigContent = MAX_JSON_FILE_SIZE_BYTES := by
  show (bigContent.data.map charEscBytes).sum = MAX_JSON_FILE_SIZE_BYTES
  rw [bigContent_data, List.map_replicate, charEscBytes_a, List.sum_replicate,
    smul_eq_mul, mul_one]

theorem escBytes_y : escBytes "y" = 1 := by decide

theorem escBytes_empty : escBytes "" = 0 := by decide

theorem ybig_url : ybig.url = "y" := rfl

theorem ybig_content : ybig.content = bigContent := rfl

theorem ybig_h1 : ybig.h1 = "" := rfl

theorem ybig_h2 : ybig.h2 = "" := rfl

theorem recordBytes_ybig : recordBytes ybig = 67 + MAX_JSON_FILE_SIZE_BYTES := by
  rw [recordBytes, ybig_url, ybig_content, ybig_h1, ybig_h2, escBytes_bigContent,
    escBytes_y, escBytes_empty]

theorem dumpsBytes_cons (r : Record) (rs : List Record) :
    dumpsBytes (r :: rs) = recordBytes r + 4 + dumpsBytes rs := by
  simp [dumpsBytes]; omega

theorem dumpsBytes_ybig_singleton :
    dumpsBytes [ybig] = 73 + MAX_JSON_FILE_SIZE_BYTES := by
  rw [dumpsBytes_cons, recordBytes_ybig]
  rw [show dumpsBytes [] = 2 from rfl]
  omega

theorem ceiling_le_dumpsBytes_ybig :
    MAX_JSON_FILE_SIZE_BYTES ≤ dumpsBytes [ybig] := by
  rw [dumpsBytes_ybig_singleton]; omega

theorem dumpsBytes_ybig_gt_ceiling :
    ¬ dumpsBytes [ybig] ≤ MAX_JSON_FILE_SIZE_BYTES := by
  rw [dumpsBytes_ybig_singleton]; omega

theorem ceiling_le_dumpsBytes_xrec_ybig :
    MAX_JSON_FILE_SIZE_BYTES ≤ dumpsBytes [xrec, ybig] := by
  rw [dumpsBytes_cons, dumpsBytes_ybig_singleton]; omega

theorem getD_length_self (l : List (List Record)) (d : List Record) :
    l.getD l.length d = d := by
  induction l with
  | nil => rfl
  | cons a t ih => rw [List.length_cons, List.getD_cons_succ]; exact ih

theorem set_last_flatten (l : List (List Record)) (x : List Record) (h : l ≠ []) :
    (l.set (l.length - 1) x).flatten = l.dropLast.flatten ++ x := by
  induction l with
  | nil => exact absurd rfl h
  | cons a t ih =>
    cases t with
    | nil => simp
    | cons b u =>
      have h1 : (a :: b :: u).length - 1 = (b :: u).length := by
        simp
      rw [h1, show (b :: u).length = u.length + 1 from by simp, List.set_cons_succ]
      have h2 : ((b :: u).set ((b :: u).length - 1) x).flatten
          = (b :: u).dropLast.flatten ++ x := ih (by simp)
      rw [show (b :: u).length - 1 = u.length from by simp] at h2
      simp only [List.flatten_cons, h2, List.dropLast_cons₂, List.flatten_cons,
        List.append_assoc]

theorem dropLast_getD_flatten (l : List (List Record)) (h : l ≠ []) :
    l.dropLast.flatten ++ l.getD (l.length - 1) [] = l.flatten := by
  induction l with
  | nil => exact absurd rfl h
  | cons a t ih =>
    cases t with
    | nil => simp [List.getD]
    | cons b u =>
      have h2 := ih (by simp)
      have h1 : (a :: b :: u).length - 1 = (b :: u).length - 1 + 1 := by
        simp
      rw [h1, List.getD_cons_succ, List.dropLast_cons₂, List.flatten_cons,
        List.append_assoc, h2]
      rfl

theorem dedupNew_sublist (ex : List String) (rows : List Record) :
    List.Sublist (dedupNew ex rows) rows := by
  induction rows generalizing ex with
  | nil => exact List.Sublist.refl []
  | cons r rs ih =>
    rw [dedupNew]
    split
    · exact (ih ex).cons r
    · split
      · exact (ih ex).cons r
      · exact (ih (r.url :: ex)).cons₂ r

theorem dumpsBytes_le_of_sublist {l1 l2 : List Record}
    (h : List.Sublist l1 l2) : dumpsBytes l1 ≤ dumpsBytes l2 := by
  unfold dumpsBytes
  have hs : (l1.map (fun r => recordBytes r + 4)).sum
      ≤ (l2.map (fun r => recordBytes r + 4)).sum := by
    induction h with
    | slnil => exact le_rfl
    | cons a h ih =>
      rw [List.map_cons, List.sum_cons]
      omega
    | cons₂ a h ih => simpa using ih
  omega

theorem dedupNew_mem_urls (rows : List Record) (r : Record)
    (hr : r ∈ rows) (hu : r.url ≠ "") (ex : List String) :
    r.url ∈ ex ∨ r.url ∈ (dedupNew ex rows).map Record.url := by
  induction rows generalizing ex with
  | nil => cases hr
  | cons a rs ih =>
    rcases List.mem_cons.mp hr with rfl | hr'
    · rw [dedupNew]
      split
      · exact absurd (by assumption) hu
      · split
        · exact Or.inl (by assumption)
        · exact Or.inr (by simp)
    · rw [dedupNew]
      split
      · exact ih hr' ex
      · split
        · exact ih hr' ex
        · rcases ih hr' (a.url :: ex) with hin | hin
          · rcases List.mem_cons.mp hin with heq | hin'
            · exact Or.inr (by simp [heq])
            · exact Or.inl hin'
          · exact Or.inr (by simp [hin])

theorem dedupNew_eq_nil (ex : List String) (rows : List Record)
    (h : ∀ r ∈ rows, r.url = "" ∨ r.url ∈ ex) : dedupNew ex rows = [] := by
  induction rows with
  | nil => rfl
  | cons a rs ih =>
    rw [dedupNew]
    by_cases h0 : a.url = ""
    · rw [if_pos h0]
      exact ih (fun r hr => h r (by simp [hr]))
    · rw [if_neg h0]
      have ha : a.url ∈ ex := by
        rcases h a (by simp) with h1 | h1
        · exact absurd h1 h0
        · exact h1
      rw [if_pos ha]
      exact ih (fun r hr => h r (by simp [hr]))

theorem dedupNew_not_mem_ex (ex : List String) (rows : List Record) :
    ∀ r ∈ dedupNew ex rows, r.url ≠ "" ∧ r.url ∉ ex := by
  induction rows generalizing ex with
  | nil => intro r hr; cases hr
  | cons a rs ih =>
    intro r hr
    rw [dedupNew] at hr
    split at hr
    · exact ih ex r hr
    · split at hr
      · exact ih ex r hr
      · rcases List.mem_cons.mp hr with rfl | hr'
        · exact ⟨by assumption, by assumption⟩
        · have hx := ih (a.url :: ex) r hr'
          exact ⟨hx.1, fun hmem => hx.2 (by simp [hmem])⟩

theorem dedupNew_urls_nodup (ex : List String) (rows : List Record) :
    ((dedupNew ex rows).map Record.url).Nodup := by
  induction rows generalizing ex with
  | nil => simp [dedupNew]
  | cons a rs ih =>
    rw [dedupNew]
    split
    · exact ih ex
    · split
      · exact ih ex
      · rw [List.map_cons, List.nodup_cons]
        refine ⟨fun hmem => ?_, ih (a.url :: ex)⟩
        rcases List.mem_map.mp hmem with ⟨r, hr, hru⟩
        exact (dedupNew_not_mem_ex (a.url :: ex) rs r hr).2 (by simp [hru])

theorem dumpsBytes_ge_two (rs : List Record) : 2 ≤ dumpsBytes rs := by
  unfold dumpsBytes; omega

theorem init_shards_of_nil (maxB : Nat) (st : SysState) (h : st.shards = []) :
    (init_output_files maxB st).shards = [[]] := by
  simp only [init_output_files]
  rw [if_pos (Or.inl h), h]
  rfl

theorem init_parquet_of_nil (maxB : Nat) (st : SysState) (h : st.shards = []) :
    (init_output_files maxB st).parquet = st.parquet := by
  simp only [init_output_files]
  rw [if_pos (Or.inl h), h]
  simp

theorem init_checkpoint (maxB : Nat) (st : SysState) :
    (init_output_files maxB st).checkpoint =
      match st.checkpoint with
      | none => some 0
      | some v => some v := by
  simp only [init_output_files]

theorem init_flatten (maxB : Nat) (st : SysState) :
    (init_output_files maxB st).shards.flatten = st.shards.flatten := by
  simp only [init_output_files]
  split
  · simp
  · rfl

theorem append_eval_nil_rows (maxB : Nat) (st : SysState) :
    append_to_files maxB st [] = st := by
  simp [append_to_files]

theorem append_eval_nonew (maxB : Nat) (st : SysState) (rows : List Record)
    (hr : rows ≠ []) (hsh : st.shards ≠ [])
    (hnew : dedupNew (storeUrls st.shards) rows = []) :
    append_to_files maxB st rows = st := by
  simp only [append_to_files]
  rw [if_neg hr, if_neg hsh, if_pos hnew]

theorem append_eval_nonew_nil (maxB : Nat) (st : SysState) (rows : List Record)
    (hr : rows ≠ []) (hsh : st.shards = [])
    (hnew : dedupNew (storeUrls st.shards) rows = []) :
    append_to_files maxB st rows = init_output_files maxB st := by
  simp only [append_to_files]
  rw [if_neg hr, if_pos hsh, if_pos hnew]

theorem get_current_last (maxB : Nat) (shards : List (List Record))
    (hsh : shards ≠ [])
    (hlast : ¬ maxB ≤ dumpsBytes (shards.getD (shards.length - 1) [])) :
    get_current_json_file maxB shards = shards.length - 1 := by
  unfold get_current_json_file
  rw [if_neg hsh, if_neg hlast]

theorem get_current_fresh (maxB : Nat) (shards : List (List Record))
    (hsh : shards ≠ [])
    (hlast : maxB ≤ dumpsBytes (shards.getD (shards.length - 1) [])) :
    get_current_json_file maxB shards = shards.length := by
  unfold get_current_json_file
  rw [if_neg hsh, if_pos hlast]

theorem append_eval_normal_last (maxB : Nat) (st : SysState) (rows : List Record)
    (hr : rows ≠ []) (hsh : st.shards ≠ [])
    (hnew : dedupNew (storeUrls st.shards) rows ≠ [])
    (hlast : ¬ maxB ≤ dumpsBytes (st.shards.getD (st.shards.length - 1) []))
    (htest : ¬ maxB ≤ dumpsBytes (st.shards.getD (st.shards.length - 1) []
        ++ dedupNew (storeUrls st.shards) rows)) :
    append_to_files maxB st rows =
      ⟨st.checkpoint,
       st.shards.set (st.shards.length - 1)
         (st.shards.getD (st.shards.length - 1) []
           ++ dedupNew (storeUrls st.shards) rows),
       updateParquet st.parquet (dedupNew (storeUrls st.shards) rows)⟩ := by
  have hne : st.shards.length - 1 ≠ st.shards.length := by
    have := List.length_pos.mpr hsh
    omega
  simp only [append_to_files, writeShard]
  rw [if_neg hr, if_neg hsh, get_current_last maxB st.shards hsh hlast,
    if_neg hnew, if_neg htest, if_neg hne]

theorem append_eval_seal_last (maxB : Nat) (st : SysState) (rows : List Record)
    (hr : rows ≠ []) (hsh : st.shards ≠ [])
    (hnew : dedupNew (storeUrls st.shards) rows ≠ [])
    (hlast : ¬ maxB ≤ dumpsBytes (st.shards.getD (st.shards.length - 1) []))
    (htest : maxB ≤ dumpsBytes (st.shards.getD (st.shards.length - 1) []
        ++ dedupNew (storeUrls st.shards) rows)) :
    append_to_files maxB st rows =
      ⟨st.checkpoint,
       st.shards.set (st.shards.length - 1) (dedupNew (storeUrls st.shards) rows),
       updateParquet st.parquet (dedupNew (storeUrls st.shards) rows)⟩ := by
  have hne : st.shards.length - 1 ≠ st.shards.length := by
    have := List.length_pos.mpr hsh
    omega
  simp only [append_to_files, writeShard]
  rw [if_neg hr, if_neg hsh, get_current_last maxB st.shards hsh hlast,
    if_neg hnew, if_pos htest, if_neg hne]

theorem append_eval_fresh (maxB : Nat) (st : SysState) (rows : List Record)
    (hr : rows ≠ []) (hsh : st.shards ≠ [])
    (hnew : dedupNew (storeUrls st.shards) rows ≠ [])
    (hlast : maxB ≤ dumpsBytes (st.shards.getD (st.shards.length - 1) [])) :
    append_to_files maxB st rows =
      ⟨st.checkpoint,
       st.shards ++ [dedupNew (storeUrls st.shards) rows],
       updateParquet st.parquet (dedupNew (storeUrls st.shards) rows)⟩ := by
  simp only [append_to_files, writeShard]
  rw [if_neg hr, if_neg hsh, get_current_fresh maxB st.shards hsh hlast,
    if_neg hnew, getD_length_self, if_pos rfl, if_pos rfl]
  rw [List.nil_append]
  split
  · rfl
  · rfl

theorem append_eval_init (maxB : Nat) (st : SysState) (rows : List Record)
    (hr : rows ≠ []) (hsh : st.shards = [])
    (hnew : dedupNew (storeUrls st.shards) rows ≠ [])
    (h2 : ¬ maxB ≤ 2) :
    append_to_files maxB st rows =
      ⟨(init_output_files maxB st).checkpoint,
       [dedupNew (storeUrls st.shards) rows],
       updateParquet st.parquet (dedupNew (storeUrls st.shards) rows)⟩ := by
  have hish := init_shards_of_nil maxB st hsh
  have hlast : ¬ maxB ≤ dumpsBytes
      ((init_output_files maxB st).shards.getD
        ((init_output_files maxB st).shards.length - 1) []) := by
    rw [hish]
    exact h2
  simp only [append_to_files, writeShard]
  rw [if_pos hsh, if_neg hr, if_neg hnew,
    get_current_last maxB (init_output_files maxB st).shards (by rw [hish]; simp) hlast,
    init_parquet_of_nil maxB st hsh, hish]
  simp only [List.length_cons, List.length_nil, Nat.zero_add, Nat.sub_self]
  rw [show ([[]] : List (List Record)).getD 0 [] = [] from rfl, List.nil_append]
  split
  · rw [if_neg (by simp : (0 : Nat) ≠ 1)]
    rfl
  · rw [if_neg (by simp : (0 : Nat) ≠ 1)]
    rfl

theorem sealTriggered_eq (maxB : Nat) (st : SysState) (rows : List Record)
    (hr : rows ≠ []) (hsh : st.shards ≠ [])
    (hnew : dedupNew (storeUrls st.shards) rows ≠ []) :
    sealTriggered maxB st rows
      = decide (maxB ≤ dumpsBytes
          (st.shards.getD (get_current_json_file maxB st.shards) []
            ++ dedupNew (storeUrls st.shards) rows)) := by
  simp only [sealTriggered]
  rw [if_neg hr, if_neg hsh, if_neg hnew]

theorem sealTriggered_eq_nil (maxB : Nat) (st : SysState) (rows : List Record)
    (hr : rows ≠ []) (hsh : st.shards = [])
    (hnew : dedupNew (storeUrls st.shards) rows ≠ []) :
    sealTriggered maxB st rows
      = decide (maxB ≤ dumpsBytes (dedupNew (storeUrls st.shards) rows)) := by
  simp only [sealTriggered]
  rw [if_neg hr, if_pos hsh, if_neg hnew, init_shards_of_nil maxB st hsh]
  by_cases hm : maxB ≤ dumpsBytes (([[]] : List (List Record)).getD
      (([[]] : List (List Record)).length - 1) [])
  · rw [get_current_fresh maxB [[]] (by simp) hm, getD_length_self, List.nil_append]
  · rw [get_current_last maxB [[]] (by simp) hm]
    rw [show (([[]] : List (List Record)).length - 1) = 0 from rfl,
      show ([[]] : List (List Record)).getD 0 [] = [] from rfl, List.nil_append]

theorem append_flatten_of_not_seal (maxB : Nat) (st : SysState) (rows : List Record)
    (h : sealTriggered maxB st rows = false) :
    (append_to_files maxB st rows).shards.flatten
      = st.shards.flatten ++ dedupNew (storeUrls st.shards) rows := by
  by_cases hr : rows = []
  · subst hr
    rw [append_eval_nil_rows, show dedupNew (storeUrls st.shards) [] = [] from rfl,
      List.append_nil]
  by_cases hnew : dedupNew (storeUrls st.shards) rows = []
  · by_cases hsh : st.shards = []
    · rw [append_eval_nonew_nil maxB st rows hr hsh hnew, init_flatten, hnew,
        List.append_nil]
    · rw [append_eval_nonew maxB st rows hr hsh hnew, hnew, List.append_nil]
  by_cases hsh : st.shards = []
  · have hcond := sealTriggered_eq_nil maxB st rows hr hsh hnew
    rw [h] at hcond
    have hc : ¬ maxB ≤ dumpsBytes (dedupNew (storeUrls st.shards) rows) :=
      of_decide_eq_false hcond.symm
    have h2 : ¬ maxB ≤ 2 := fun hm => hc (le_trans hm (dumpsBytes_ge_two _))
    rw [append_eval_init maxB st rows hr hsh hnew h2]
    show ([dedupNew (storeUrls st.shards) rows] : List (List Record)).flatten
        = st.shards.flatten ++ dedupNew (storeUrls st.shards) rows
    rw [hsh]
    simp
  · have hcond := sealTriggered_eq maxB st rows hr hsh hnew
    rw [h] at hcond
    have hc : ¬ maxB ≤ dumpsBytes
        (st.shards.getD (get_current_json_file maxB st.shards) []
          ++ dedupNew (storeUrls st.shards) rows) := of_decide_eq_false hcond.symm
    by_cases hlast : maxB ≤ dumpsBytes (st.shards.getD (st.shards.length - 1) [])
    · rw [get_current_fresh maxB st.shards hsh hlast, getD_length_self,
        List.nil_append] at hc
      rw [append_eval_fresh maxB st rows hr hsh hnew hlast]
      show (st.shards ++ [dedupNew (storeUrls st.shards) rows]).flatten = _
      rw [List.flatten_append]
      simp
    · rw [get_current_last maxB st.shards hsh hlast] at hc
      rw [append_eval_normal_last maxB st rows hr hsh hnew hlast hc]
      show (st.shards.set (st.shards.length - 1)
          (st.shards.getD (st.shards.length - 1) []
            ++ dedupNew (storeUrls st.shards) rows)).flatten = _
      rw [set_last_flatten _ _ hsh, ← List.append_assoc, dropLast_getD_flatten _ hsh]

theorem writeShard_ne_nil (shards : List (List Record)) (i : Nat) (x : List Record)
    (h : shards ≠ []) : writeShard shards i x ≠ [] := by
  unfold writeShard
  split
  · simp
  · intro hset
    have hlen := congrArg List.length hset
    rw [List.length_set] at hlen
    exact h (List.length_eq_zero.mp hlen)

theorem append_result_shards (maxB : Nat) (st : SysState) (rows : List Record)
    (hr : rows ≠ []) (hnew : dedupNew (storeUrls st.shards) rows ≠ []) :
    ∃ i x, (append_to_files maxB st rows).shards
      = writeShard (if st.shards = [] then init_output_files maxB st else st).shards i x := by
  simp only [append_to_files]
  rw [if_neg hr, if_neg hnew]
  split
  · split
    · exact ⟨_, _, rfl⟩
    · exact ⟨_, _, rfl⟩
  · split
    · exact ⟨_, _, rfl⟩
    · exact ⟨_, _, rfl⟩

theorem append_shards_ne_nil (maxB : Nat) (st : SysState) (rows : List Record)
    (hr : rows ≠ []) : (append_to_files maxB st rows).shards ≠ [] := by
  by_cases hnew : dedupNew (storeUrls st.shards) rows = []
  · by_cases hsh : st.shards = []
    · rw [append_eval_nonew_nil maxB st rows hr hsh hnew, init_shards_of_nil maxB st hsh]
      simp
    · rw [append_eval_nonew maxB st rows hr hsh hnew]
      exact hsh
  · rcases append_result_shards maxB st rows hr hnew with ⟨i, x, heq⟩
    rw [heq]
    by_cases hsh : st.shards = []
    · rw [if_pos hsh]
      exact writeShard_ne_nil _ i x (by rw [init_shards_of_nil maxB st hsh]; simp)
    · rw [if_neg hsh]
      exact writeShard_ne_nil _ i x hsh

theorem append_eval_init_small (maxB : Nat) (st : SysState) (rows : List Record)
    (hr : rows ≠ []) (hsh : st.shards = [])
    (hnew : dedupNew (storeUrls st.shards) rows ≠ [])
    (h2 : maxB ≤ 2) :
    append_to_files maxB st rows =
      ⟨(init_output_files maxB st).checkpoint,
       [[], dedupNew (storeUrls st.shards) rows],
       updateParquet st.parquet (dedupNew (storeUrls st.shards) rows)⟩ := by
  have hish := init_shards_of_nil maxB st hsh
  have hlast : maxB ≤ dumpsBytes
      ((init_output_files maxB st).shards.getD
        ((init_output_files maxB st).shards.length - 1) []) := by
    rw [hish]
    exact h2
  have htest : maxB ≤ dumpsBytes (dedupNew (storeUrls st.shards) rows) :=
    le_trans h2 (dumpsBytes_ge_two _)
  simp only [append_to_files, writeShard]
  rw [if_pos hsh, if_neg hr, if_neg hnew,
    get_current_fresh maxB (init_output_files maxB st).shards (by rw [hish]; simp) hlast,
    init_parquet_of_nil maxB st hsh, hish, getD_length_self, List.nil_append,
    if_pos rfl, if_pos htest]
  rfl

theorem append_flatten_sublist (maxB : Nat) (st : SysState) (rows : List Record) :
    List.Sublist (append_to_files maxB st rows).shards.flatten
      (st.shards.flatten ++ dedupNew (storeUrls st.shards) rows) := by
  by_cases hseal : sealTriggered maxB st rows = false
  · rw [append_flatten_of_not_seal maxB st rows hseal]
  · have hr : rows ≠ [] := by
      intro hc
      exact hseal (by rw [hc]; rfl)
    have hnew : dedupNew (storeUrls st.shards) rows ≠ [] := by
      intro hc
      apply hseal
      by_cases hsh : st.shards = []
      · simp only [sealTriggered]
        rw [if_neg hr, if_pos hsh, if_pos hc]
      · simp only [sealTriggered]
        rw [if_neg hr, if_neg hsh, if_pos hc]
    by_cases hsh : st.shards = []
    · by_cases h2 : maxB ≤ 2
      · rw [append_eval_init_small maxB st rows hr hsh hnew h2]
        show List.Sublist ([[], dedupNew (storeUrls st.shards) rows] :
            List (List Record)).flatten _
        rw [hsh]
        simp
      · rw [append_eval_init maxB st rows hr hsh hnew h2]
        show List.Sublist ([dedupNew (storeUrls st.shards) rows] :
            List (List Record)).flatten _
        rw [hsh]
        simp
    · by_cases hlast : maxB ≤ dumpsBytes (st.shards.getD (st.shards.length - 1) [])
      · rw [append_eval_fresh maxB st rows hr hsh hnew hlast]
        show List.Sublist (st.shards ++ [dedupNew (storeUrls st.shards) rows]).flatten _
        rw [List.flatten_append]
        simp
      · have hcond := sealTriggered_eq maxB st rows hr hsh hnew
        rw [get_current_last maxB st.shards hsh hlast] at hcond
        have htest : maxB ≤ dumpsBytes (st.shards.getD (st.shards.length - 1) []
            ++ dedupNew (storeUrls st.shards) rows) := by
          by_contra hc
          rw [hcond] at hseal
          exact hseal (decide_eq_false hc)
        rw [append_eval_seal_last maxB st rows hr hsh hnew hlast htest]
        show List.Sublist (st.shards.set (st.shards.length - 1)
            (dedupNew (storeUrls st.shards) rows)).flatten _
        rw [set_last_flatten _ _ hsh]
        have hsub : List.Sublist st.shards.dropLast.flatten st.shards.flatten := by
          rw [← dropLast_getD_flatten st.shards hsh]
          exact List.sublist_append_left _ _
        exact hsub.append_right _

theorem storeUrls_of_append_not_seal (maxB : Nat) (st : SysState) (rows : List Record)
    (h : sealTriggered maxB st rows = false) :
    storeUrls (append_to_files maxB st rows).shards
      = storeUrls st.shards ++ (dedupNew (storeUrls st.shards) rows).map Record.url := by
  rw [show storeUrls (append_to_files maxB st rows).shards
      = ((append_to_files maxB st rows).shards.flatten.map Record.url).filter
          (fun u => u ≠ "") from rfl,
    append_flatten_of_not_seal maxB st rows h, List.map_append, List.filter_append]
  congr 1
  rw [List.filter_eq_self]
  intro u hu
  rcases List.mem_map.mp hu with ⟨r, hrr, hru⟩
  subst hru
  exact decide_eq_true (dedupNew_not_mem_ex _ _ r hrr).1

/-- C5 (amended): `append_to_files` is idempotent whenever the first append
does not trigger the size-ceiling seal branch: appending the same record set
again finds every surviving url already in the store, filters everything out,
and returns before any write.  (When the seal branch does trigger, it
overwrites the current shard with only the new rows — see the C2/C5
counterexamples — and a second identical append can re-insert a record the
first one dropped, so the unconditional claim fails.) -/
theorem append_idem_of_not_seal (maxB : Nat) (st : SysState) (rows : List Record)
    (h : sealTriggered maxB st rows = false) :
    append_to_files maxB (append_to_files maxB st rows) rows
      = append_to_files maxB st rows := by
  by_cases hr : rows = []
  · subst hr
    rw [append_eval_nil_rows]
  · have hAsh : (append_to_files maxB st rows).shards ≠ [] :=
      append_shards_ne_nil maxB st rows hr
    have hAnew : dedupNew (storeUrls (append_to_files maxB st rows).shards) rows = [] := by
      apply dedupNew_eq_nil
      intro r hrr
      by_cases hu : r.url = ""
      · exact Or.inl hu
      · refine Or.inr ?_
        rw [storeUrls_of_append_not_seal maxB st rows h]
        rcases dedupNew_mem_urls rows r hrr hu (storeUrls st.shards) with hin | hin
        · exact List.mem_append_left _ hin
        · exact List.mem_append_right _ hin
    exact append_eval_nonew maxB _ rows hr hAsh hAnew

theorem wf_append (maxB : Nat) (st : SysState) (rows : List Record)
    (hwf : wfStore st) : wfStore (append_to_files maxB st rows) := by
  have hsub := append_flatten_sublist maxB st rows
  constructor
  · have hmap := hsub.map Record.url
    refine List.Nodup.sublist hmap ?_
    rw [List.map_append]
    refine List.Nodup.append hwf.1 (dedupNew_urls_nodup _ _) ?_
    intro u hu1 hu2
    rcases List.mem_map.mp hu2 with ⟨r, hrr, hru⟩
    have hnm := dedupNew_not_mem_ex _ _ r hrr
    apply hnm.2
    unfold storeUrls
    rw [List.mem_filter]
    exact ⟨hru ▸ hu1, decide_eq_true hnm.1⟩
  · intro r hrm
    have hrm2 := hsub.subset hrm
    rcases List.mem_append.mp hrm2 with hin | hin
    · exact hwf.2 r hin
    · exact (dedupNew_not_mem_ex _ _ r hin).1

theorem append_shard_sizes (maxB : Nat) (st : SysState) (rows : List Record)
    (h2 : 2 < maxB)
    (hrows : dumpsBytes rows < maxB)
    (hst : ∀ s ∈ st.shards, dumpsBytes s < maxB) :
    ∀ s ∈ (append_to_files maxB st rows).shards, dumpsBytes s < maxB := by
  have hnewle : dumpsBytes (dedupNew (storeUrls st.shards) rows) ≤ dumpsBytes rows :=
    dumpsBytes_le_of_sublist (dedupNew_sublist _ _)
  by_cases hr : rows = []
  · subst hr
    rw [append_eval_nil_rows]
    exact hst
  by_cases hnew : dedupNew (storeUrls st.shards) rows = []
  · by_cases hsh : st.shards = []
    · rw [append_eval_nonew_nil maxB st rows hr hsh hnew, init_shards_of_nil maxB st hsh]
      intro s hs
      rw [List.mem_singleton] at hs
      subst hs
      show dumpsBytes [] < maxB
      unfold dumpsBytes
      simp only [List.map_nil, List.sum_nil]
      omega
    · rw [append_eval_nonew maxB st rows hr hsh hnew]
      exact hst
  by_cases hsh : st.shards = []
  · have hm2 : ¬ maxB ≤ 2 := by omega
    rw [append_eval_init maxB st rows hr hsh hnew hm2]
    intro s hs
    replace hs : s ∈ [dedupNew (storeUrls st.shards) rows] := hs
    rw [List.mem_singleton] at hs
    subst hs
    exact lt_of_le_of_lt hnewle hrows
  · by_cases hlast : maxB ≤ dumpsBytes (st.shards.getD (st.shards.length - 1) [])
    · rw [append_eval_fresh maxB st rows hr hsh hnew hlast]
      intro s hs
      replace hs : s ∈ st.shards ++ [dedupNew (storeUrls st.shards) rows] := hs
      rcases List.mem_append.mp hs with hin | hin
      · exact hst s hin
      · rw [List.mem_singleton] at hin
        subst hin
        exact lt_of_le_of_lt hnewle hrows
    · by_cases htest : maxB ≤ dumpsBytes (st.shards.getD (st.shards.length - 1) []
          ++ dedupNew (storeUrls st.shards) rows)
      · rw [append_eval_seal_last maxB st rows hr hsh hnew hlast htest]
        intro s hs
        replace hs : s ∈ st.shards.set (st.shards.length - 1)
            (dedupNew (storeUrls st.shards) rows) := hs
        rcases List.mem_or_eq_of_mem_set hs with hin | heq
        · exact hst s hin
        · subst heq
          exact lt_of_le_of_lt hnewle hrows
      · rw [append_eval_normal_last maxB st rows hr hsh hnew hlast htest]
        intro s hs
        replace hs : s ∈ st.shards.set (st.shards.length - 1)
            (st.shards.getD (st.shards.length - 1) []
              ++ dedupNew (storeUrls st.shards) rows) := hs
        rcases List.mem_or_eq_of_mem_set hs with hin | heq
        · exact hst s hin
        · subst heq
          omega

theorem phase1Go_spec (f1 f2 : Int → List String) (budget : Int → Bool)
    (processed : List String) (pages : List Int) (s : Phase1Result) :
    (phase1Go f1 f2 budget processed pages s).attempted
        = s.attempted ++ pages.takeWhile budget ∧
    (phase1Go f1 f2 budget processed pages s).saves
        = s.saves ++ (pages.takeWhile budget).filter
            (fun p => !(finalLinks f1 f2 p).isEmpty) := by
  induction pages generalizing s with
  | nil => simp [phase1Go]
  | cons p rest ih =>
    by_cases hb : budget p = false
    · rw [phase1Go, if_pos hb]
      have htw : (p :: rest).takeWhile budget = [] := by
        simp [List.takeWhile_cons, hb]
      rw [htw]
      simp
    · have hb' : budget p = true := by
        cases hbp : budget p
        · exact absurd hbp hb
        · rfl
      have htw : (p :: rest).takeWhile budget = p :: rest.takeWhile budget := by
        simp [List.takeWhile_cons, hb']
      rw [phase1Go, if_neg hb, htw]
      by_cases hl : finalLinks f1 f2 p = []
      · rw [if_pos hl]
        constructor
        · rw [(ih _).1]
          simp
        · rw [(ih _).2, List.filter_cons,
            show (!(finalLinks f1 f2 p).isEmpty) = false from by rw [hl]; rfl]
          simp
      · rw [if_neg hl]
        constructor
        · rw [(ih _).1]
          simp
        · rw [(ih _).2, List.filter_cons,
            show (!(finalLinks f1 f2 p).isEmpty) = true from by
              cases hfl : finalLinks f1 f2 p with
              | nil => exact absurd hfl hl
              | cons a l => rfl]
          simp

/-- C4 (amended): when the loaded checkpoint is at least `MAX_PAGES`, the
controller short-circuits before phase 1: it performs zero fetch calls and
leaves the checkpoint file and the shard records unchanged.  (The claim's
"all persisted state unchanged" is too strong: `initialize_output_files` and
`load_processed_urls` run before the terminal check and may rewrite the
derived parquet index file, or create an empty shard file — see the
counterexample.) -/
theorem run_once_terminal (maxB : Nat) (f1 f2 : Int → List String)
    (ff : String → String × String × String)
    (budget : Int → Bool) (budget2 : String → Bool) (st : SysState)
    (h : MAX_PAGES ≤ load_page_checkpoint st.checkpoint) :
    (run_once maxB f1 f2 ff budget budget2 st).2 = 0 ∧
    (run_once maxB f1 f2 ff budget budget2 st).1.checkpoint = st.checkpoint ∧
    (run_once maxB f1 f2 ff budget budget2 st).1.shards.flatten = st.shards.flatten := by
  rcases hc : st.checkpoint with _ | v
  · rw [hc] at h
    exact absurd h (by decide)
  · rw [hc] at h
    have hv : MAX_PAGES ≤ v := by
      unfold load_page_checkpoint at h
      rcases le_max_iff.mp h with h1 | h1
      · exact h1
      · exact absurd h1 (by decide)
    have hck : (init_output_files maxB st).checkpoint = some v := by
      rw [init_checkpoint, hc]
    have hload : load_page_checkpoint (init_output_files maxB st).checkpoint = v := by
      rw [hck]
      unfold load_page_checkpoint
      exact max_eq_left (le_trans (by decide) hv)
    have hv7 : (7185 : Int) ≤ v := hv
    have hcond : MAX_PAGES
        < max (load_page_checkpoint (init_output_files maxB st).checkpoint + 1) 1 := by
      rw [hload, max_eq_left (by omega : (1 : Int) ≤ v + 1)]
      show (7185 : Int) < v + 1
      omega
    simp only [run_once]
    rw [if_pos hcond]
    refine ⟨rfl, ?_, ?_⟩
    · rw [hck]
    · exact init_flatten maxB st

theorem append_eval_stX_ybig :
    append_to_files MAX_JSON_FILE_SIZE_BYTES stX [ybig] = stY := by
  have hd : dedupNew (storeUrls stX.shards) [ybig] = [ybig] := rfl
  have htest : MAX_JSON_FILE_SIZE_BYTES ≤ dumpsBytes
      (stX.shards.getD (stX.shards.length - 1) []
        ++ dedupNew (storeUrls stX.shards) [ybig]) := by
    rw [hd]
    exact ceiling_le_dumpsBytes_xrec_ybig
  rw [append_eval_seal_last MAX_JSON_FILE_SIZE_BYTES stX [ybig] (by decide) (by decide)
    (by decide) (by decide) htest]
  rfl

theorem append_eval_stX_dup_ybig :
    append_to_files MAX_JSON_FILE_SIZE_BYTES stX [xdup, ybig] = stY := by
  have hd : dedupNew (storeUrls stX.shards) [xdup, ybig] = [ybig] := rfl
  have htest : MAX_JSON_FILE_SIZE_BYTES ≤ dumpsBytes
      (stX.shards.getD (stX.shards.length - 1) []
        ++ dedupNew (storeUrls stX.shards) [xdup, ybig]) := by
    rw [hd]
    exact ceiling_le_dumpsBytes_xrec_ybig
  rw [append_eval_seal_last MAX_JSON_FILE_SIZE_BYTES stX [xdup, ybig] (by decide) (by decide)
    (by decide) (by decide) htest]
  rfl

theorem append_eval_stY_dup_ybig :
    append_to_files MAX_JSON_FILE_SIZE_BYTES stY [xdup, ybig]
      = ⟨some 0, [[ybig], [xdup]], [xrec, ybig]⟩ := by
  have hlast : MAX_JSON_FILE_SIZE_BYTES ≤ dumpsBytes
      (stY.shards.getD (stY.shards.length - 1) []) := ceiling_le_dumpsBytes_ybig
  rw [append_eval_fresh MAX_JSON_FILE_SIZE_BYTES stY [xdup, ybig] (by decide) (by decide)
    (by decide) hlast]
  rfl

theorem append_eval_stY_zrec :
    append_to_files MAX_JSON_FILE_SIZE_BYTES stY [zrec]
      = ⟨some 0, [[ybig], [zrec]], [xrec, ybig, zrec]⟩ := by
  have hlast : MAX_JSON_FILE_SIZE_BYTES ≤ dumpsBytes
      (stY.shards.getD (stY.shards.length - 1) []) := ceiling_le_dumpsBytes_ybig
  rw [append_eval_fresh MAX_JSON_FILE_SIZE_BYTES stY [zrec] (by decide) (by decide)
    (by decide) hlast]
  rfl

/-- C1 (counterexample): with a fetcher yielding zero links for page 6019 on
both the first attempt and the retry, phase 1 counts the page as attempted
(`pages_processed` is incremented and the loop advances past it), yet no
checkpoint save is issued — the `continue` in the total-failure branch of
`run_once` skips `save_page_checkpoint`, so "save is called unconditionally
after every page attempted" is false. -/
theorem phase1_total_failure_skips_save :
    (phase1Go (fun _ => []) (fun _ => []) (fun _ => true) [] [6019]
        ⟨[], [], [], 0⟩).attempted = [6019]
    ∧ (phase1Go (fun _ => []) (fun _ => []) (fun _ => true) [] [6019]
        ⟨[], [], [], 0⟩).saves = [] :=
  ⟨rfl, rfl⟩

/-- C1 (amended): in phase 1 the pages attempted are exactly the pages of the
run's range up to the first budget stop, in order, and `save_page_checkpoint`
is called for exactly those attempted pages whose link extraction — counting
the one fresh-browser retry — yields at least one link, each immediately
after its attempt; a page whose extraction still yields no links after the
retry is skipped without a checkpoint save. -/
theorem phase1_saves_exactly_pages_with_links (f1 f2 : Int → List String)
    (budget : Int → Bool) (processed : List String) (pages : List Int) :
    (phase1Go f1 f2 budget processed pages ⟨[], [], [], 0⟩).attempted
        = pages.takeWhile budget
    ∧ (phase1Go f1 f2 budget processed pages ⟨[], [], [], 0⟩).saves
        = (pages.takeWhile budget).filter
            (fun p => !(finalLinks f1 f2 p).isEmpty) := by
  rcases phase1Go_spec f1 f2 budget processed pages ⟨[], [], [], 0⟩ with ⟨h1, h2⟩
  rw [h1, h2]
  exact ⟨List.nil_append _, List.nil_append _⟩

/-- C2 (code bug): at the real 95 MB ceiling, appending a batch that pushes
the current shard's dry-run serialization over the ceiling does not preserve
the stored records.  The source writes `existing_data` back to the current
file, then calls `get_current_json_file()` again; since the file on disk is
still under the ceiling, the very same file comes back (despite the log line
"Created new JSON file") and is overwritten with only the new rows: the
previously stored record `xrec` is dropped from every shard. -/
theorem append_overflow_drops_stored_records :
    xrec ∈ stX.shards.flatten
    ∧ xrec ∉ (append_to_files MAX_JSON_FILE_SIZE_BYTES stX [ybig]).shards.flatten := by
  constructor
  · decide
  · rw [append_eval_stX_ybig]
    decide

/-- C3 (counterexample): the batch `[xdup, ybig]` contains `xdup`, whose url
"x" already exists in the store `stX` as the stored record `xrec`; the
duplicate is filtered out, but the previously stored record is not left
unchanged — the batch pushes the shard over the ceiling and the seal slip
wipes the current shard, so `xrec` is gone from the resulting store. -/
theorem append_dup_batch_loses_stored_record :
    xrec ∈ stX.shards.flatten
    ∧ xdup.url = xrec.url
    ∧ xrec ∉ (append_to_files MAX_JSON_FILE_SIZE_BYTES stX
        [xdup, ybig]).shards.flatten := by
  refine ⟨by decide, by decide, ?_⟩
  rw [append_eval_stX_dup_ybig]
  decide

/-- C3 (amended): appends preserve the store's url-uniqueness invariant (a
well-formed store — pairwise distinct, non-empty urls — stays well-formed),
and whenever the append does not trigger the size-ceiling seal branch the
resulting records are exactly the old records followed by the first-write-wins
filtered batch (`dedupNew`): a record whose url already exists anywhere in the
store, or repeats an earlier url of the same batch, is filtered out and every
previously stored record is unchanged.  When the seal branch triggers, records
of the current shard are lost (see the counterexample and C2). -/
theorem append_first_write_wins (maxB : Nat) (st : SysState) (rows : List Record) :
    (wfStore st → wfStore (append_to_files maxB st rows))
    ∧ (sealTriggered maxB st rows = false →
        (append_to_files maxB st rows).shards.flatten
          = st.shards.flatten ++ dedupNew (storeUrls st.shards) rows) :=
  ⟨wf_append maxB st rows, append_flatten_of_not_seal maxB st rows⟩

/-- C3 (witness): the spec scenario — two records with url "a" appended to an
empty store leave exactly one stored record, the first one (`h1 = "H1"`), and
the store is well-formed; the seal branch is not triggered. -/
theorem append_first_write_wins_scenario :
    sealTriggered MAX_JSON_FILE_SIZE_BYTES ⟨none, [], []⟩
        [⟨"a", "H1", "", "C"⟩, ⟨"a", "dup", "", ""⟩] = false
    ∧ (append_to_files MAX_JSON_FILE_SIZE_BYTES ⟨none, [], []⟩
        [⟨"a", "H1", "", "C"⟩, ⟨"a", "dup", "", ""⟩]).shards.flatten
        = [⟨"a", "H1", "", "C"⟩]
    ∧ wfStore (append_to_files MAX_JSON_FILE_SIZE_BYTES ⟨none, [], []⟩
        [⟨"a", "H1", "", "C"⟩, ⟨"a", "dup", "", ""⟩]) := by
  refine ⟨by decide, ?_, ?_⟩
  · rw [(append_first_write_wins MAX_JSON_FILE_SIZE_BYTES ⟨none, [], []⟩
      [⟨"a", "H1", "", "C"⟩, ⟨"a", "dup", "", ""⟩]).2 (by decide)]
    decide
  · exact (append_first_write_wins MAX_JSON_FILE_SIZE_BYTES ⟨none, [], []⟩
      [⟨"a", "H1", "", "C"⟩, ⟨"a", "dup", "", ""⟩]).1 (by decide)

/-- C4 (counterexample): a state whose checkpoint (7185) equals `MAX_PAGES`
and whose parquet index file is empty while the shard holds a record.  The
controller performs zero fetches, but `initialize_output_files` and
`load_processed_urls` rebuild the parquet before the terminal check — the
persisted index file is changed, refuting "leaves all persisted state
unchanged". -/
theorem run_once_terminal_rebuilds_index :
    MAX_PAGES ≤ load_page_checkpoint
        (⟨some 7185, [[xrec]], []⟩ : SysState).checkpoint
    ∧ (run_once MAX_JSON_FILE_SIZE_BYTES (fun _ => []) (fun _ => [])
        (fun _ => ("", "", "")) (fun _ => true) (fun _ => true)
        ⟨some 7185, [[xrec]], []⟩).2 = 0
    ∧ (run_once MAX_JSON_FILE_SIZE_BYTES (fun _ => []) (fun _ => [])
        (fun _ => ("", "", "")) (fun _ => true) (fun _ => true)
        ⟨some 7185, [[xrec]], []⟩).1.parquet
      ≠ (⟨some 7185, [[xrec]], []⟩ : SysState).parquet := by
  decide

/-- C4 (witness): the terminal frame theorem applied at a concrete state with
checkpoint 7185. -/
theorem run_once_terminal_witness :
    MAX_PAGES ≤ load_page_checkpoint ((⟨some 7185, [], []⟩ : SysState).checkpoint)
    ∧ ((run_once 100 (fun _ => []) (fun _ => []) (fun _ => ("", "", ""))
          (fun _ => true) (fun _ => true) (⟨some 7185, [], []⟩ : SysState)).2 = 0
      ∧ (run_once 100 (fun _ => []) (fun _ => []) (fun _ => ("", "", ""))
          (fun _ => true) (fun _ => true)
          (⟨some 7185, [], []⟩ : SysState)).1.checkpoint
        = (⟨some 7185, [], []⟩ : SysState).checkpoint
      ∧ (run_once 100 (fun _ => []) (fun _ => []) (fun _ => ("", "", ""))
          (fun _ => true) (fun _ => true)
          (⟨some 7185, [], []⟩ : SysState)).1.shards.flatten
        = (⟨some 7185, [], []⟩ : SysState).shards.flatten) :=
  ⟨by decide,
   run_once_terminal 100 (fun _ => []) (fun _ => []) (fun _ => ("", "", ""))
     (fun _ => true) (fun _ => true) (⟨some 7185, [], []⟩ : SysState) (by decide)⟩

/-- C5 (counterexample): `append` is not idempotent.  Appending
`[xdup, ybig]` to `stX` triggers the seal slip and wipes the stored record
with url "x"; the second identical append no longer sees "x" in the store,
re-admits `xdup`, and writes it to a fresh shard — the store after two appends
differs from the store after one. -/
theorem append_not_idempotent :
    append_to_files MAX_JSON_FILE_SIZE_BYTES
        (append_to_files MAX_JSON_FILE_SIZE_BYTES stX [xdup, ybig]) [xdup, ybig]
      ≠ append_to_files MAX_JSON_FILE_SIZE_BYTES stX [xdup, ybig] := by
  rw [append_eval_stX_dup_ybig, append_eval_stY_dup_ybig]
  intro h
  exact absurd (congrArg (fun s => s.shards.length) h) (by decide)

/-- C5 (witness): the idempotence theorem applied at a small append that stays
under the ceiling. -/
theorem append_idem_witness :
    sealTriggered MAX_JSON_FILE_SIZE_BYTES ⟨none, [], []⟩ [zrec] = false
    ∧ append_to_files MAX_JSON_FILE_SIZE_BYTES
        (append_to_files MAX_JSON_FILE_SIZE_BYTES ⟨none, [], []⟩ [zrec]) [zrec]
      = append_to_files MAX_JSON_FILE_SIZE_BYTES ⟨none, [], []⟩ [zrec] :=
  ⟨by decide, append_idem_of_not_seal MAX_JSON_FILE_SIZE_BYTES ⟨none, [], []⟩ [zrec]
    (by decide)⟩

/-- C6 (counterexample): a single filtered batch whose serialization reaches
the ceiling is written whole to one shard (the store never splits a batch);
the next small append then opens a fresh file, sealing that oversize shard.
The sealed (non-latest) shard `[ybig]` exceeds the 95 MB ceiling, refuting
"every sealed shard's serialized byte size is at most the ceiling". -/
theorem sealed_shard_exceeds_ceiling :
    (append_to_files MAX_JSON_FILE_SIZE_BYTES
        (append_to_files MAX_JSON_FILE_SIZE_BYTES stX [ybig]) [zrec]).shards.dropLast
      = [[ybig]]
    ∧ ¬ dumpsBytes [ybig] ≤ MAX_JSON_FILE_SIZE_BYTES := by
  constructor
  · rw [append_eval_stX_ybig, append_eval_stY_zrec]
    rfl
  · exact dumpsBytes_ybig_gt_ceiling

/-- C6 (amended): after any sequence of `append_to_files` calls in which
every batch serializes below the ceiling, every shard — sealed or currently
open — stays below the ceiling (given every starting shard does and the
ceiling exceeds the 2-byte empty serialization); only a single batch at or
above the ceiling can produce a shard that is sealed while over the
ceiling. -/
theorem shards_bounded_of_small_batches (maxB : Nat) (batches : List (List Record))
    (st : SysState) (h2 : 2 < maxB)
    (hb : ∀ b ∈ batches, dumpsBytes b < maxB)
    (hst : ∀ s ∈ st.shards, dumpsBytes s < maxB) :
    ∀ s ∈ (batches.foldl (append_to_files maxB) st).shards, dumpsBytes s < maxB := by
  induction batches generalizing st with
  | nil => exact hst
  | cons b bs ih =>
    rw [List.foldl_cons]
    exact ih (append_to_files maxB st b)
      (fun x hx => hb x (by simp [hx]))
      (append_shard_sizes maxB st b h2 (hb b (by simp)) hst)

/-- C6 (witness): the bound theorem applied to two small batches appended to
an empty store at ceiling 100, evaluated at the store's first shard. -/
theorem shards_bounded_witness :
    dumpsBytes (([[zrec], [xrec]].foldl (append_to_files 100)
        ⟨none, [], []⟩).shards.getD 0 []) < 100 :=
  shards_bounded_of_small_batches 100 [[zrec], [xrec]] ⟨none, [], []⟩
    (by decide) (by decide) (by decide)
    (([[zrec], [xrec]].foldl (append_to_files 100) ⟨none, [], []⟩).shards.getD 0 [])
    (by decide)

/-- C7: when the parquet Duplicate Index has fewer than 100 entries (in
particular when it is empty) and the shards are non-trivial (their readable
records are non-empty), `load_processed_urls` first rebuilds the index from
all shard files, and afterwards a url is in the returned membership set iff
some record of the shards carries it. -/
theorem load_processed_rebuild_exact (files : List (Option (List Record)))
    (parquet : List Record) (u : String)
    (hsmall : parquet.length < 100)
    (hnontrivial : readableRecords files ≠ []) :
    (load_processed_urls files parquet).2 = readableRecords files
    ∧ (u ∈ (load_processed_urls files parquet).1
        ↔ ∃ r ∈ readableRecords files, r.url = u) := by
  have hfne : files ≠ [] := by
    intro hf
    exact hnontrivial (by rw [hf]; rfl)
  have hpq : (if parquet.length < 100
      then rebuild_parquet_from_json files parquet else parquet)
      = readableRecords files := by
    rw [if_pos hsmall]
    unfold rebuild_parquet_from_json
    rw [if_neg hfne, if_neg hnontrivial]
  constructor
  · show (if parquet.length < 100
        then rebuild_parquet_from_json files parquet else parquet)
        = readableRecords files
    exact hpq
  · show u ∈ (if parquet.length < 100
        then rebuild_parquet_from_json files parquet else parquet).map Record.url ↔ _
    rw [hpq]
    constructor
    · intro hm
      rcases List.mem_map.mp hm with ⟨r, hr, hru⟩
      exact ⟨r, hr, hru⟩
    · rintro ⟨r, hr, hru⟩
      exact List.mem_map.mpr ⟨r, hr, hru⟩

/-- C7 (witness): one shard holding `xrec`, empty parquet, url "x". -/
theorem load_processed_rebuild_exact_witness :
    ([] : List Record).length < 100
    ∧ readableRecords [some [xrec]] ≠ []
    ∧ (load_processed_urls [some [xrec]] []).2 = readableRecords [some [xrec]]
    ∧ ("x" ∈ (load_processed_urls [some [xrec]] []).1
        ↔ ∃ r ∈ readableRecords [some [xrec]], r.url = "x") :=
  ⟨by decide, by decide,
   (load_processed_rebuild_exact [some [xrec]] [] "x" (by decide) (by decide)).1,
   (load_processed_rebuild_exact [some [xrec]] [] "x" (by decide) (by decide)).2⟩

/-- C8: `load_page_checkpoint` returns `START_PAGE - 1` (6018) when the
checkpoint file is absent or unreadable, and after any sequence of saves
ending with `save(p)` for a page `p` in the crawl range, a subsequent load
returns exactly `p` — the last successfully saved value, never an earlier
one. -/
theorem checkpoint_load_after_save (st : SysState) (qs : List Int) (p : Int)
    (hlo : START_PAGE ≤ p) (_hhi : p ≤ MAX_PAGES) :
    load_page_checkpoint none = START_PAGE - 1
    ∧ load_page_checkpoint
        ((List.foldl (fun s q => save_page_checkpoint q s) st (qs ++ [p])).checkpoint)
      = p := by
  refine ⟨rfl, ?_⟩
  rw [List.foldl_append]
  show load_page_checkpoint (some p) = p
  unfold load_page_checkpoint
  exact max_eq_left (by omega)

/-- C8 (witness): spec scenario — absent checkpoint loads as 6018; after
`save(6019)`, load returns 6019. -/
theorem checkpoint_load_after_save_witness :
    (START_PAGE ≤ (6019 : Int) ∧ (6019 : Int) ≤ MAX_PAGES)
    ∧ load_page_checkpoint none = START_PAGE - 1
    ∧ load_page_checkpoint
        ((List.foldl (fun s q => save_page_checkpoint q s)
          (⟨none, [], []⟩ : SysState) ([] ++ [(6019 : Int)])).checkpoint)
      = 6019 :=
  ⟨by decide,
   (checkpoint_load_after_save ⟨none, [], []⟩ [] 6019 (by decide) (by decide)).1,
   (checkpoint_load_after_save ⟨none, [], []⟩ [] 6019 (by decide) (by decide)).2⟩

/-- C9 (counterexample): with a single unreadable shard file and a stale
non-empty index, the rebuild finds no readable records and leaves the old
index file in place — the resulting index is not "built from exactly the
records of the readable shards" (which would be empty). -/
theorem rebuild_keeps_stale_index :
    rebuild_parquet_from_json [none] [xrec] = [xrec]
    ∧ readableRecords [none] = []
    ∧ rebuild_parquet_from_json [none] [xrec] ≠ readableRecords [none] := by
  decide

/-- C9 (amended): rebuilding the Duplicate Index always completes, skipping
unreadable or corrupt shard files (treating each as empty) and never deleting
them; when the readable shards contain at least one record the rebuilt index
holds exactly those records, and when they contain none the rebuild writes
nothing and the previous index file is left as it was. -/
theorem rebuild_skips_unreadable (files : List (Option (List Record)))
    (parquet : List Record) :
    (readableRecords files ≠ [] →
        rebuild_parquet_from_json files parquet = readableRecords files)
    ∧ (readableRecords files = [] →
        rebuild_parquet_from_json files parquet = parquet) := by
  constructor
  · intro h
    have hf : files ≠ [] := by
      intro hf
      exact h (by rw [hf]; rfl)
    unfold rebuild_parquet_from_json
    rw [if_neg hf, if_neg h]
  · intro h
    unfold rebuild_parquet_from_json
    by_cases hf : files = []
    · rw [if_pos hf]
    · rw [if_neg hf, if_pos h]

/-- C9 (witness): one unreadable and one readable shard — the rebuilt index
is exactly the readable records; all-empty readable records leave the index
untouched. -/
theorem rebuild_skips_unreadable_witness :
    readableRecords [none, some [xrec]] ≠ []
    ∧ rebuild_parquet_from_json [none, some [xrec]] []
        = readableRecords [none, some [xrec]]
    ∧ readableRecords [some ([] : List Record)] = []
    ∧ rebuild_parquet_from_json [some ([] : List Record)] [] = [] :=
  ⟨by decide,
   (rebuild_skips_unreadable [none, some [xrec]] []).1 (by decide),
   by decide,
   (rebuild_skips_unreadable [some ([] : List Record)] []).2 (by decide)⟩

/-- C10: the checkpoint loader clamps from below at `START_PAGE - 1`: for
every stored value `v`, `load` returns `max v (START_PAGE - 1)`, every load
is at least `START_PAGE - 1`, and the 0 written by first initialization is
read back as `START_PAGE - 1` — a checkpoint earlier than the configured
start page is silently clamped up rather than honored. -/
theorem checkpoint_clamped_to_start (maxB : Nat) :
    (∀ v : Int, load_page_checkpoint (some v) = max v (START_PAGE - 1))
    ∧ (∀ cp : Option Int, START_PAGE - 1 ≤ load_page_checkpoint cp)
    ∧ (∀ st : SysState, st.checkpoint = none →
        load_page_checkpoint (init_output_files maxB st).checkpoint
          = START_PAGE - 1) := by
  refine ⟨fun v => rfl, ?_, ?_⟩
  · intro cp
    cases cp with
    | none => exact le_refl _
    | some v => exact le_max_right _ _
  · intro st hc
    rw [init_checkpoint, hc]
    show load_page_checkpoint (some 0) = START_PAGE - 1
    unfold load_page_checkpoint
    exact max_eq_right (by decide)

/-- C10 (witness): instances — a stored 3 loads as 6018, a negative value
stays at or above 6018, and first initialization's 0 loads as 6018. -/
theorem checkpoint_clamped_to_start_witness :
    load_page_checkpoint (some 3) = max 3 (START_PAGE - 1)
    ∧ START_PAGE - 1 ≤ load_page_checkpoint (some (-5))
    ∧ load_page_checkpoint
        (init_output_files MAX_JSON_FILE_SIZE_BYTES
          (⟨none, [], []⟩ : SysState)).checkpoint = START_PAGE - 1 :=
  ⟨(checkpoint_clamped_to_start MAX_JSON_FILE_SIZE_BYTES).1 3,
   (checkpoint_clamped_to_start MAX_JSON_FILE_SIZE_BYTES).2.1 (some (-5)),
   (checkpoint_clamped_to_start MAX_JSON_FILE_SIZE_BYTES).2.2 ⟨none, [], []⟩ rfl⟩
